import Mathlib

/-!
Verification of the job-queue / transfer-pipeline coordinator of the
Sadesha-Bot repository, shallowly embedded from the Python sources
`queue_manager.py`, `drive_service.py` and `admin_utils.py`.

Conventions of the embedding:
* `time.time()` values are rationals (`ℚ`).
* A Telegram `edit_text` / `reply_text` call is recorded as an attempted
  message write `(chat-or-message id, text, delivered?)`; whether a given
  write succeeds is supplied by an oracle, mirroring the fact that the
  messaging collaborator may fail any individual write.
* Python exceptions are values of `Exn` (a flag marking `GoogleAuthError`
  plus the exception text); `raise` is modelled by returning an outcome
  carrying the exception.
* The `asyncio` event loop is cooperative: code between two `await`s of a
  coroutine runs atomically.  Where a claim depends on interleavings at
  suspension points, the relevant code is modelled as a small-step
  transition system whose steps are exactly those atomic segments.
-/

/-! ## String helpers (substring test used by `"cancelled by admin" in str(e).lower()`) -/

/-- Character-list version of `startswith`. -/
def startsWithChars : List Char → List Char → Bool
  | _, [] => true
  | [], _ :: _ => false
  | c :: cs, d :: ds => c == d && startsWithChars cs ds

/-- Character-list substring test. -/
def hasSubChars : List Char → List Char → Bool
  | [], pat => pat.isEmpty
  | c :: rest, pat => startsWithChars (c :: rest) pat || hasSubChars rest pat

/-- Python `needle in hay` on strings. -/
def strContainsSub (hay needle : String) : Bool :=
  hasSubChars hay.data needle.data

/-- Python `str.startswith(p)`. -/
def strStartsWith (s p : String) : Bool :=
  startsWithChars s.data p.data

/-- Python truthiness of a string: empty strings are falsy. -/
def strIsEmpty (s : String) : Bool := s.data.isEmpty

/-- ASCII lower-casing of one character (as Python `str.lower()` does on the
ASCII strings the code compares). -/
def lowerChar (c : Char) : Char :=
  if 65 ≤ c.toNat ∧ c.toNat ≤ 90 then Char.ofNat (c.toNat + 32) else c

/-- Python `str.lower()`. -/
def lowerStr (s : String) : String := String.mk (s.data.map lowerChar)

/-- Propositional "the text `sub` occurs verbatim inside `hay`". -/
def containsText (hay sub : String) : Prop :=
  ∃ x z, hay.data = x ++ sub.data ++ z

theorem data_append_eq (a b : String) : (a ++ b).data = a.data ++ b.data := by
  cases a; cases b; rfl

theorem containsText_of_parts (x sub z : String) : containsText (x ++ sub ++ z) sub := by
  refine ⟨x.data, z.data, ?_⟩
  rw [data_append_eq, data_append_eq]

/-! ## Administrator store (`admin_utils.py`)

The dynamic admin set persisted in `admins.json` is modelled as the list
`dyn`; the parsed `EXTRA_ADMINS` environment variable as the list `env`.
-/

def HARDCODED_ADMINS : List String := ["@slhomelander", "@sljohnwick"]

/-- Python `str.isdigit()` (ASCII digits suffice for the handles compared). -/
def pyIsDigit (s : String) : Bool := !strIsEmpty s && s.data.all Char.isDigit

/-- The `@`-normalisation performed at the top of `is_admin`, `add_admin`
and `remove_admin`. -/
def normalizeUser (u : String) : String :=
  if !strStartsWith u "@" && !pyIsDigit u then "@" ++ u else u

/-- `get_all_admins`: hardcoded ∪ dynamic ∪ environment admins. -/
def get_all_admins (dyn env : List String) : List String :=
  HARDCODED_ADMINS ++ dyn ++ env

/-- `is_admin`. -/
def is_admin (dyn env : List String) (username : String) : Bool :=
  if strIsEmpty username then false
  else (get_all_admins dyn env).contains (normalizeUser username)

/-- `add_admin`: returns (ok, message, new dynamic store). -/
def add_admin (dyn : List String) (username : String) : Bool × String × List String :=
  let u := normalizeUser username
  if HARDCODED_ADMINS.contains u then
    (false, "User is already a permanent admin.", dyn)
  else if dyn.contains u then
    (false, "User is already an admin.", dyn)
  else
    (true, "User " ++ u ++ " added as admin.", dyn ++ [u])

/-- `remove_admin`: returns (ok, message, new dynamic store). -/
def remove_admin (dyn : List String) (username : String) : Bool × String × List String :=
  let u := normalizeUser username
  if HARDCODED_ADMINS.contains u then
    (false, "Cannot remove permanent admins.", dyn)
  else if !dyn.contains u then
    (false, "User is not a dynamic admin.", dyn)
  else
    (true, "User " ++ u ++ " removed from admins.", dyn.erase u)

/-- One invocation of either admin mutation. -/
inductive AdminOp
  | add (u : String)
  | remove (u : String)

/-- Effect of one operation on the dynamic store. -/
def applyAdminOp (dyn : List String) : AdminOp → List String
  | .add u => (add_admin dyn u).2.2
  | .remove u => (remove_admin dyn u).2.2

/-- Effect of a sequence of operations on the dynamic store. -/
def applyAdminOps (dyn : List String) : List AdminOp → List String
  | [] => dyn
  | op :: ops => applyAdminOps (applyAdminOp dyn op) ops

theorem is_admin_of_hardcoded (dyn env : List String) (u : String)
    (hu : u ∈ HARDCODED_ADMINS) : is_admin dyn env u = true := by
  have hcases : u = "@slhomelander" ∨ u = "@sljohnwick" := by
    simpa [HARDCODED_ADMINS] using hu
  have hmem : u ∈ get_all_admins dyn env :=
    List.mem_append_left _ (List.mem_append_left _ hu)
  have hnorm : normalizeUser u = u := by
    rcases hcases with h | h <;> subst h <;> decide
  have hne : strIsEmpty u = false := by
    rcases hcases with h | h <;> subst h <;> decide
  simp [is_admin, hne, hnorm, List.contains, hmem]

/-- C10 (theorem): hardcoded admins are permanent — `is_admin` stays true
under every sequence of add/remove operations, `remove_admin` refuses to
touch them and `add_admin` refuses to re-add them, leaving the dynamic
store unchanged in both cases. -/
theorem c10_hardcoded_admins_permanent (u : String) (hu : u ∈ HARDCODED_ADMINS)
    (ops : List AdminOp) (dyn env : List String) :
    is_admin (applyAdminOps dyn ops) env u = true ∧
    remove_admin dyn u = (false, "Cannot remove permanent admins.", dyn) ∧
    add_admin dyn u = (false, "User is already a permanent admin.", dyn) := by
  have hcases : u = "@slhomelander" ∨ u = "@sljohnwick" := by
    simpa [HARDCODED_ADMINS] using hu
  refine ⟨is_admin_of_hardcoded _ _ _ hu, ?_, ?_⟩ <;>
    rcases hcases with h | h <;> subst h <;>
      simp +decide [remove_admin, add_admin, HARDCODED_ADMINS,
        (by decide : normalizeUser "@slhomelander" = "@slhomelander"),
        (by decide : normalizeUser "@sljohnwick" = "@sljohnwick"),
        (by decide : HARDCODED_ADMINS.contains "@slhomelander" = true),
        (by decide : HARDCODED_ADMINS.contains "@sljohnwick" = true)]

/-- C10 (witness): concrete instance at `"@slhomelander"` with a removal
attempt and a re-add attempt in the operation history. -/
theorem c10_witness :
    is_admin (applyAdminOps ["@bob"] [AdminOp.remove "@slhomelander", AdminOp.add "slhomelander"])
        ["@eve"] "@slhomelander" = true ∧
    remove_admin ["@bob"] "@slhomelander" =
      (false, "Cannot remove permanent admins.", ["@bob"]) ∧
    add_admin ["@bob"] "@slhomelander" =
      (false, "User is already a permanent admin.", ["@bob"]) :=
  c10_hardcoded_admins_permanent "@slhomelander" (by decide)
    [AdminOp.remove "@slhomelander", AdminOp.add "slhomelander"] ["@bob"] ["@eve"]

/-! ## Status-channel messages (the exact texts written by `queue_manager.py`)

An attempted write to a status handle is recorded as
`(message id, text, delivered?)`; the `Bool` says whether the messaging
collaborator accepted the write.
-/

def Edit : Type := ℕ × String × Bool

def msgDownloading (f : String) : String := "Downloading " ++ f ++ "..."

def msgUploading (f : String) : String := "Uploading " ++ f ++ " to Google Drive..."

def msgSuccess (f fid : String) : String :=
  "✅ Successfully uploaded!\nFile: `" ++ f ++ "`\nID: `" ++ fid ++ "`"

def msgAuthErr (m : String) : String :=
  "❌ **Drive Auth Error:**\n`" ++ m ++ "`\n\nUse /reauth to fix this."

def msgUploadFailed (m : String) : String := "❌ **Upload failed:**\n`" ++ m ++ "`"

def msgWorkerErr (m : String) : String := "❌ Error: " ++ m

def msgForceStopped : String := "🛑 This task was force-stopped by an admin."

def msgPausedReject : String :=
  "🛑 The bot is currently paused by an admin. New tasks are not accepted."

def msgPauseCancelled : String :=
  "🛑 This task was cancelled because the bot was paused by an admin."

def msgQueuedWait : String := "Queued... Waiting for turn."

def msgQueuedPos (n : ℕ) : String := "Queued... Position in line: " ++ toString n

/-! ## Exceptions and the transfer backend (`drive_service.upload_file`)

Python exceptions are `(isAuth?, text)`: `isAuth` marks `GoogleAuthError`,
everything else is a generic `Exception`.  The resumable upload is driven by
a script of per-iteration events: each `request.next_chunk()` call either
reports fractional progress, finishes with the new file id, or raises.
`upload_file` polls `check_cancelled()` at the top of every loop iteration.
-/

structure Exn where
  isAuth : Bool
  msg : String
deriving DecidableEq

def adminMarker : String := "cancelled by admin"

def cancelExnMsg : String := "Upload cancelled by admin"

def cancelExn : Exn := ⟨false, cancelExnMsg⟩

def notifyExn : Exn := ⟨false, "Message edit failed"⟩

inductive Chunk
  | progress (p : ℚ)
  | done (fid : String)
  | err (e : Exn)

/-- `drive_service.upload_file`: the loop body, started at poll index `k`.
Returns the outcome (`none` if the event script is exhausted with the upload
still incomplete) and the list of fractions handed to `progress_callback`,
in order.  The cancellation predicate is polled before every chunk. -/
def upload_file (cancelled : ℕ → Bool) : ℕ → List Chunk → Option (Except Exn String) × List ℚ
  | k, [] => (if cancelled k then some (.error cancelExn) else none, [])
  | k, c :: rest =>
    if cancelled k then (some (.error cancelExn), [])
    else
      match c with
      | .done fid => (some (.ok fid), [])
      | .err e => (some (.error e), [])
      | .progress p =>
        let r := upload_file cancelled (k + 1) rest
        (r.1, p :: r.2)

/-! ## Progress throttling (`progress_callback_async`, lines 138–149)

`last_update_time` maps a status message id to the wall-clock time of the
last progress edit for it; an event inside the 2-second window is dropped
(the map is untouched and the value is never replayed).
-/

def lookupT : List (ℕ × ℚ) → ℕ → Option ℚ
  | [], _ => none
  | (k, v) :: rest, i => if k = i then some v else lookupT rest i

def eraseT : List (ℕ × ℚ) → ℕ → List (ℕ × ℚ)
  | [], _ => []
  | (k, v) :: rest, i => if k = i then eraseT rest i else (k, v) :: eraseT rest i

def insertT (m : List (ℕ × ℚ)) (i : ℕ) (v : ℚ) : List (ℕ × ℚ) :=
  (i, v) :: eraseT m i

/-- Python `int()` truncation of a rational. -/
def pyTrunc (q : ℚ) : ℤ := q.num / (q.den : ℤ)

/-- The progress-bar text assembled by `progress_callback_async`. -/
def progressText (f : String) (p : ℚ) : String :=
  let percent := pyTrunc (p * 100)
  let filled := (percent / 10).toNat
  "Uploading " ++ f ++ "\n[" ++ String.mk (List.replicate filled '█') ++
    String.mk (List.replicate (10 - filled) '░') ++ "] " ++ toString percent ++ "%"

structure ProgRes where
  thr : List (ℕ × ℚ)
  edits : List (ℕ × String × Bool)
  emits : List ℚ

/-- The sequence of `progress_callback_async` activations for one job:
`sid` is the status message id, `times k` the wall-clock time at which the
`k`-th callback runs, `ok k` whether its (swallowed) edit succeeds.
`emits` records the times at which an edit was actually attempted — note the
timestamp is stored *before* the edit, so even a failed edit closes the
window. -/
def runProgress (sid : ℕ) (f : String) (times : ℕ → ℚ) (ok : ℕ → Bool) :
    ℕ → List (ℕ × ℚ) → List ℚ → ProgRes
  | _, m, [] => ⟨m, [], []⟩
  | k, m, p :: ps =>
    let now := times k
    let emit : Bool :=
      match lookupT m sid with
      | none => true
      | some l => decide (2 < now - l)
    if emit then
      let r := runProgress sid f times ok (k + 1) (insertT m sid now) ps
      ⟨r.thr, (sid, progressText f p, ok k) :: r.edits, now :: r.emits⟩
    else
      let r := runProgress sid f times ok (k + 1) m ps
      ⟨r.thr, r.edits, r.emits⟩

/-! ## One job (`QueueManager.process_job`, lines 114–186) -/

/-- Success/failure outcomes of the status-handle writes issued by
`process_job` and the worker.  Writes wrapped in `try/except: pass` in the
source are *swallowed*: their slot only shows up in the edit record.  The
`Downloading`/`Uploading` transition edits and the terminal edits are not
wrapped, so their failure raises. -/
structure NotifySlots where
  downloadingOk : Bool
  uploadingOk : Bool
  progressOk : ℕ → Bool
  successOk : Bool
  authOk : Bool
  failOk : Bool
  positionOk : Bool

def allNotifyOk : NotifySlots := ⟨true, true, fun _ => true, true, true, true, true⟩

/-- Everything `process_job` observes about one job and its environment:
the Telegram payload, the behaviour of `get_drive_service`, the upload
event script, the polls of `self.paused`, the callback times and the
status-write outcomes. -/
structure JobEnv where
  fileName : String
  sid : ℕ
  downloadErr : Option Exn
  serviceErr : Option String
  chunks : List Chunk
  cancelled : ℕ → Bool
  times : ℕ → ℚ
  notify : NotifySlots

/-- How one `process_job` call ends, as seen by the worker loop. -/
inductive Outcome
  | completed (fid : String)
  | failedAuth (m : String)
  | failedOther (m : String)
  | raisedCancelled
  | raisedExn (e : Exn)
  | hung
deriving DecidableEq

structure PRes where
  edits : List (ℕ × String × Bool)
  outcome : Outcome
  thr : List (ℕ × ℚ)

/-- The `except Exception as e:` block of `process_job` (lines 175–184),
together with the `finally:` pop of the throttle record (line 186):
an exception whose lowered text contains `"cancelled by admin"` is
re-raised as `asyncio.CancelledError`; a `GoogleAuthError` gets the
auth-error edit; anything else the generic failure edit.  The two edits are
not protected, so their own failure raises out of `process_job`. -/
def handleUploadExn (sid : ℕ) (slots : NotifySlots) (edits : List (ℕ × String × Bool))
    (m : List (ℕ × ℚ)) (ex : Exn) : PRes :=
  if strContainsSub (lowerStr ex.msg) adminMarker then
    ⟨edits, .raisedCancelled, eraseT m sid⟩
  else if ex.isAuth then
    ⟨edits ++ [(sid, msgAuthErr ex.msg, slots.authOk)],
      if slots.authOk then .failedAuth ex.msg else .raisedExn notifyExn,
      eraseT m sid⟩
  else
    ⟨edits ++ [(sid, msgUploadFailed ex.msg, slots.failOk)],
      if slots.failOk then .failedOther ex.msg else .raisedExn notifyExn,
      eraseT m sid⟩

/-- `QueueManager.process_job`.  Mirrors the source line by line: the
`Downloading`/`Uploading` edits and the download precede the `try:`
(so an exception there skips the `finally:` pop), `get_drive_service` and
the executor-run upload sit inside it, and the success edit is also inside
it — its failure falls into the same `except` as an upload error. -/
def process_job (env : JobEnv) (m0 : List (ℕ × ℚ)) : PRes :=
  let e1 := (env.sid, msgDownloading env.fileName, env.notify.downloadingOk)
  if env.notify.downloadingOk = false then ⟨[e1], .raisedExn notifyExn, m0⟩
  else
    match env.downloadErr with
    | some ex => ⟨[e1], .raisedExn ex, m0⟩
    | none =>
      let e2 := (env.sid, msgUploading env.fileName, env.notify.uploadingOk)
      if env.notify.uploadingOk = false then ⟨[e1, e2], .raisedExn notifyExn, m0⟩
      else
        match env.serviceErr with
        | some am => handleUploadExn env.sid env.notify [e1, e2] m0 ⟨true, am⟩
        | none =>
          let ur := upload_file env.cancelled 0 env.chunks
          let pr := runProgress env.sid env.fileName env.times env.notify.progressOk 0 m0 ur.2
          let base := [e1, e2] ++ pr.edits
          match ur.1 with
          | none => ⟨base, .hung, pr.thr⟩
          | some (.ok fid) =>
            if env.notify.successOk then
              ⟨base ++ [(env.sid, msgSuccess env.fileName fid, true)],
                .completed fid, eraseT pr.thr env.sid⟩
            else
              handleUploadExn env.sid env.notify
                (base ++ [(env.sid, msgSuccess env.fileName fid, false)]) pr.thr notifyExn
          | some (.error ex) => handleUploadExn env.sid env.notify base pr.thr ex

/-! ## The worker loop (`QueueManager.worker`, lines 83–112)

`worker_run` processes the queued jobs in order.  After each job the
`finally:` block republishes the 1-based positions of the remaining jobs.
An `asyncio.CancelledError` edits the force-stopped notice, republishes and
exits the activation; any other exception edits the error notice
(swallowed) and the loop continues with the next job.
-/

def posEdits : ℕ → List JobEnv → List (ℕ × String × Bool)
  | _, [] => []
  | i, j :: rest => (j.sid, msgQueuedPos (i + 1), j.notify.positionOk) :: posEdits (i + 1) rest

structure WRes where
  thr : List (ℕ × ℚ)
  edits : List (ℕ × String × Bool)
  outcomes : List Outcome
  processed : List ℕ
  halted : Bool

/-- One worker activation over the current queue contents (no concurrent
enqueue or pause is interleaved; a pause *during* a job's upload is
expressed through that job's `cancelled` polls). -/
def worker_run (m : List (ℕ × ℚ)) : List JobEnv → WRes
  | [] => ⟨m, [], [], [], false⟩
  | j :: rest =>
    let r := process_job j m
    match r.outcome with
    | .raisedCancelled =>
      ⟨r.thr, r.edits ++ [(j.sid, msgForceStopped, true)] ++ posEdits 0 rest,
        [Outcome.raisedCancelled], [j.sid], true⟩
    | .raisedExn ex =>
      let w := worker_run r.thr rest
      ⟨w.thr, r.edits ++ [(j.sid, msgWorkerErr ex.msg, true)] ++ posEdits 0 rest ++ w.edits,
        Outcome.raisedExn ex :: w.outcomes, j.sid :: w.processed, w.halted⟩
    | .hung => ⟨r.thr, r.edits, [Outcome.hung], [j.sid], true⟩
    | o =>
      let w := worker_run r.thr rest
      ⟨w.thr, r.edits ++ posEdits 0 rest ++ w.edits,
        o :: w.outcomes, j.sid :: w.processed, w.halted⟩

/-! ## Queue-manager control state (`add_job`, `pause_bot`, `resume_bot`)

The coordinator state as one `QueueManager` instance holds it: the pause
flag, the pending queue (status message ids, FIFO), the `is_processing`
flag and the `worker_task` handle.  `add_job` and `pause_bot` run here as
single atomic calls (each claim below concerns the call's own effect; the
interleaved behaviours are treated by the small-step models further down).
-/

structure WTask where
  taskDone : Bool
  cancelRequested : Bool
deriving DecidableEq

structure BotState where
  paused : Bool
  queue : List ℕ
  processing : Bool
  workerTask : Option WTask
deriving DecidableEq

/-- Position republishing over the pending queue, as `add_job` triggers it
through `update_queue_status` when a worker is already processing. -/
def posEditsQ : ℕ → List ℕ → List (ℕ × String × Bool)
  | _, [] => []
  | i, sid :: rest => (sid, msgQueuedPos (i + 1), true) :: posEditsQ (i + 1) rest

/-- `QueueManager.add_job` (lines 20–42): a paused bot refuses the
submission outright; otherwise the job is appended and, if no worker is
processing, a worker task is created.  Returns the new state, the message
writes issued, and the id of the created job (if any). -/
def add_job (s : BotState) (newSid : ℕ) : BotState × List (ℕ × String × Bool) × Option ℕ :=
  if s.paused then (s, [(newSid, msgPausedReject, true)], none)
  else
    let q := s.queue ++ [newSid]
    if s.processing = false then
      ({ s with queue := q, workerTask := some ⟨false, false⟩ },
        [(newSid, msgQueuedWait, true)], some newSid)
    else
      ({ s with queue := q },
        (newSid, msgQueuedWait, true) :: posEditsQ 0 q, some newSid)

/-- The `worker_task.cancel()` signal sent at the end of `pause_bot`
(lines 60–61): only an existing, not-yet-done task is cancelled. -/
def cancelSignal : Option WTask → Option WTask
  | none => none
  | some t => if t.taskDone then some t else some { t with cancelRequested := true }

/-- `QueueManager.pause_bot` (lines 44–63): sets the pause flag, drains the
queue notifying every drained job (each notification is wrapped in
`try/except: pass`, `ok i` telling whether write `i` is delivered), signals
cancellation to the worker task, and returns the drained count. -/
def pause_bot (s : BotState) (ok : ℕ → Bool) :
    BotState × ℕ × List (ℕ × String × Bool) :=
  ({ paused := true, queue := [], processing := s.processing,
     workerTask := cancelSignal s.workerTask },
   s.queue.length,
   (s.queue.enum.map fun x => (x.2, msgPauseCancelled, ok x.1)))

/-- `QueueManager.resume_bot` (lines 65–67). -/
def resume_bot (s : BotState) : BotState := { s with paused := false }

/-! ## `update_queue_status` under interleaved enqueues (lines 69–81)

The republishing pass drains the whole queue into `temp_list` (that drain
has no suspension point), then for each drained job `await`s an `edit_text`
— a real suspension point at which a concurrently running `add_job` may
`put` a fresh job into the queue — and then re-inserts the drained job.
The `i`-th entry of `enqs` lists the jobs enqueued during the `i`-th edit
await.
-/

def update_queue_status_run : List ℕ → List (List ℕ) → List ℕ → List ℕ
  | [], _, q => q
  | j :: rest, [], q => update_queue_status_run rest [] (q ++ [j])
  | j :: rest, e :: es, q => update_queue_status_run rest es (q ++ e ++ [j])

/-! ## Worker activations under interleaved `add_job` calls (C1)

`add_job` `await`s `reply_text` *before* reading `is_processing`
(line 26 precedes line 38), and `is_processing` is only set to `True` by
the worker coroutine itself (line 85), which `asyncio.create_task`
schedules but does not run synchronously.  The atomic segments are:

* `beginAdd` — an `add_job` call passes the pause check and suspends at
  `reply_text`;
* `rejectAdd` — an `add_job` call observes `paused` and returns;
* `resumeAddBusy` / `resumeAddIdle` — a suspended `add_job` resumes, puts
  its job and reads `is_processing`; when it reads `False` it creates a
  worker task (`unstarted` counts created-but-not-yet-run activations);
* `startWorker` — a created worker task begins running and sets
  `is_processing = True`;
* `dequeueJob` — a running activation pops the head job;
* `finishWorker` — an activation's `finally:` sets `is_processing = False`
  and ends it.
-/

structure WState where
  wpaused : Bool
  processing : Bool
  queueLen : ℕ
  pendingAdds : ℕ
  unstarted : ℕ
  running : ℕ
deriving DecidableEq

def workerInit : WState := ⟨false, false, 0, 0, 0, 0⟩

inductive WStep : WState → WState → Prop
  | beginAdd (s : WState) (h : s.wpaused = false) :
      WStep s { s with pendingAdds := s.pendingAdds + 1 }
  | rejectAdd (s : WState) (h : s.wpaused = true) : WStep s s
  | resumeAddBusy (s : WState) (h : 1 ≤ s.pendingAdds) (hp : s.processing = true) :
      WStep s { s with pendingAdds := s.pendingAdds - 1, queueLen := s.queueLen + 1 }
  | resumeAddIdle (s : WState) (h : 1 ≤ s.pendingAdds) (hp : s.processing = false) :
      WStep s { s with pendingAdds := s.pendingAdds - 1, queueLen := s.queueLen + 1,
                       unstarted := s.unstarted + 1 }
  | startWorker (s : WState) (h : 1 ≤ s.unstarted) :
      WStep s { s with unstarted := s.unstarted - 1, running := s.running + 1,
                       processing := true }
  | dequeueJob (s : WState) (h : 1 ≤ s.running) (hq : 1 ≤ s.queueLen) :
      WStep s { s with queueLen := s.queueLen - 1 }
  | finishWorker (s : WState) (h : 1 ≤ s.running) :
      WStep s { s with running := s.running - 1, processing := false }

/-- States reachable from the freshly constructed `QueueManager`. -/
def WReach (s : WState) : Prop := Relation.ReflTransGen WStep workerInit s

/-- Worker activations that exist (created or running). -/
def activations (s : WState) : ℕ := s.unstarted + s.running

/-- The same transition system under a prompt-activation scheduling
assumption: a suspended `add_job` never resumes while a created worker
task has yet to start running.  Only `resumeAddIdle` is restricted; all
other steps are those of `WStep`. -/
inductive PromptStep : WState → WState → Prop
  | beginAdd (s : WState) (h : s.wpaused = false) :
      PromptStep s { s with pendingAdds := s.pendingAdds + 1 }
  | rejectAdd (s : WState) (h : s.wpaused = true) : PromptStep s s
  | resumeAddBusy (s : WState) (h : 1 ≤ s.pendingAdds) (hp : s.processing = true) :
      PromptStep s { s with pendingAdds := s.pendingAdds - 1, queueLen := s.queueLen + 1 }
  | resumeAddIdle (s : WState) (h : 1 ≤ s.pendingAdds) (hp : s.processing = false)
      (hz : s.unstarted = 0) :
      PromptStep s { s with pendingAdds := s.pendingAdds - 1, queueLen := s.queueLen + 1,
                            unstarted := s.unstarted + 1 }
  | startWorker (s : WState) (h : 1 ≤ s.unstarted) :
      PromptStep s { s with unstarted := s.unstarted - 1, running := s.running + 1,
                            processing := true }
  | dequeueJob (s : WState) (h : 1 ≤ s.running) (hq : 1 ≤ s.queueLen) :
      PromptStep s { s with queueLen := s.queueLen - 1 }
  | finishWorker (s : WState) (h : 1 ≤ s.running) :
      PromptStep s { s with running := s.running - 1, processing := false }

def PromptReach (s : WState) : Prop := Relation.ReflTransGen PromptStep workerInit s

/-! ## C4 — submissions while paused -/

/-- C4 (theorem): a submission arriving while the Pause State is `true` is
answered with the rejection message, creates no job, and leaves the whole
coordinator state (queue included) unchanged. -/
theorem c4_paused_submission_rejected (s : BotState) (sid : ℕ) (h : s.paused = true) :
    add_job s sid = (s, [(sid, msgPausedReject, true)], none) := by
  simp [add_job, h]

/-- C4 (witness): concrete paused state with a non-empty queue. -/
theorem c4_witness :
    add_job ⟨true, [5, 6], true, some ⟨false, true⟩⟩ 9 =
      (⟨true, [5, 6], true, some ⟨false, true⟩⟩, [(9, msgPausedReject, true)], none) :=
  c4_paused_submission_rejected ⟨true, [5, 6], true, some ⟨false, true⟩⟩ 9 rfl

/-! ## C3 — pause drains and counts the queue -/

theorem pause_edits_spec (ok : ℕ → Bool) :
    ∀ (l : List ℕ) (n : ℕ),
      ((List.enumFrom n l).map fun x => (x.2, msgPauseCancelled, ok x.1)).map
          (fun e => (e.1, e.2.1)) =
        l.map (fun sid => (sid, msgPauseCancelled)) := by
  intro l
  induction l with
  | nil => intro n; rfl
  | cons a l ih => intro n; simp [List.enumFrom, ih]

/-- C3 (theorem): `pause_bot` on a state with `N` queued jobs sets the pause
flag, empties the queue, returns exactly `N` (the active job is not in the
queue and is not counted), issues one cancellation notice per drained job in
queue order, and signals cancellation to the worker task exactly when one
exists and is not yet done. -/
theorem c3_pause_drains_and_counts (s : BotState) (ok : ℕ → Bool) :
    (pause_bot s ok).1.paused = true ∧
    (pause_bot s ok).1.queue = [] ∧
    (pause_bot s ok).2.1 = s.queue.length ∧
    ((pause_bot s ok).2.2.map fun e => (e.1, e.2.1)) =
      s.queue.map (fun sid => (sid, msgPauseCancelled)) ∧
    (∀ t : WTask, s.workerTask = some t → t.taskDone = false →
      (pause_bot s ok).1.workerTask = some ⟨t.taskDone, true⟩) ∧
    (s.workerTask = none → (pause_bot s ok).1.workerTask = none) := by
  refine ⟨rfl, rfl, rfl, ?_, ?_, ?_⟩
  · exact pause_edits_spec ok s.queue 0
  · intro t ht hd
    simp [pause_bot, cancelSignal, ht, hd]
  · intro h
    simp [pause_bot, cancelSignal, h]

/-- C3 (witness): three queued jobs and an active worker task. -/
theorem c3_witness :
    (pause_bot ⟨false, [11, 12, 13], true, some ⟨false, false⟩⟩ (fun _ => true)).1.paused = true ∧
    (pause_bot ⟨false, [11, 12, 13], true, some ⟨false, false⟩⟩ (fun _ => true)).2.1 = 3 ∧
    (pause_bot ⟨false, [11, 12, 13], true, some ⟨false, false⟩⟩
        (fun _ => true)).1.workerTask = some ⟨false, true⟩ := by
  have h := c3_pause_drains_and_counts ⟨false, [11, 12, 13], true, some ⟨false, false⟩⟩
    (fun _ => true)
  exact ⟨h.1, h.2.2.1, h.2.2.2.2.1 ⟨false, false⟩ rfl rfl⟩

/-! ## C9 — idempotence of pause and resume -/

theorem cancelSignal_idem (w : Option WTask) : cancelSignal (cancelSignal w) = cancelSignal w := by
  cases w with
  | none => rfl
  | some t =>
    cases t with
    | mk d c => cases d <;> simp [cancelSignal]

/-- C9 (theorem): a second `pause_bot` on an already-paused state drains
nothing, returns 0 and leaves the state fixed; `resume_bot` is idempotent
and only clears the pause flag — it does not touch the worker task, the
processing flag or the queue — and the worker restart happens on the next
successful enqueue: an `add_job` after `resume_bot` with no worker
processing creates a fresh worker task. -/
theorem c9_pause_resume_idempotent (s : BotState) (ok ok2 : ℕ → Bool) (sid : ℕ) :
    pause_bot (pause_bot s ok).1 ok2 = ((pause_bot s ok).1, 0, []) ∧
    resume_bot (resume_bot s) = resume_bot s ∧
    (resume_bot s).workerTask = s.workerTask ∧
    (resume_bot s).processing = s.processing ∧
    (resume_bot s).queue = s.queue ∧
    (s.processing = false →
      (add_job (resume_bot s) sid).1.workerTask = some ⟨false, false⟩ ∧
      (add_job (resume_bot s) sid).1.queue = s.queue ++ [sid]) := by
  refine ⟨?_, rfl, rfl, rfl, rfl, ?_⟩
  · simp [pause_bot, cancelSignal_idem]
  · intro hp
    simp [add_job, resume_bot, hp]

/-- C9 (witness): paused-twice fixpoint and restart-on-enqueue at a concrete
state with an idle worker. -/
theorem c9_witness :
    pause_bot (pause_bot ⟨false, [7], false, some ⟨true, false⟩⟩ (fun _ => true)).1
        (fun _ => false) =
      ((pause_bot ⟨false, [7], false, some ⟨true, false⟩⟩ (fun _ => true)).1, 0, []) ∧
    (add_job (resume_bot ⟨false, [7], false, some ⟨true, false⟩⟩) 8).1.workerTask =
      some ⟨false, false⟩ := by
  have h := c9_pause_resume_idempotent ⟨false, [7], false, some ⟨true, false⟩⟩
    (fun _ => true) (fun _ => false) 8
  exact ⟨h.1, (h.2.2.2.2.2 rfl).1⟩

/-! ## C2 — FIFO ordering and the republishing pass -/

/-- C2 (counterexample): the position-republishing pass is *not* immune to
interleaved enqueues.  With jobs 1 and 2 drained into `temp_list` and job 3
enqueued by a concurrent `add_job` during the first `edit_text` await, the
rebuilt queue is `[3, 1, 2]`: job 3, submitted last, is now at the head and
reaches `Uploading` before jobs 1 and 2 — submission order is violated. -/
theorem c2_refuted :
    update_queue_status_run [1, 2] [[3], []] [] = [3, 1, 2] ∧
    update_queue_status_run [1, 2] [[3], []] [] ≠ [1, 2, 3] := by decide

theorem uqs_no_enqueues (q : List ℕ) :
    ∀ acc : List ℕ, update_queue_status_run q [] acc = acc ++ q := by
  induction q with
  | nil => intro acc; simp [update_queue_status_run]
  | cons j rest ih =>
    intro acc
    simp [update_queue_status_run, ih]

/-- C2 (amended theorem): the worker does take the oldest pending job next —
jobs are processed in exactly the queue order (the processed ids are a
prefix of the queued ids, cut short only by a cancellation) — and the
republishing pass preserves the queue exactly when no enqueue interleaves
with it.  (With an interleaved enqueue the order is *not* preserved, see
the counterexample.) -/
theorem c2_fifo_amended :
    (∀ q acc : List ℕ, update_queue_status_run q [] acc = acc ++ q) ∧
    (∀ (m : List (ℕ × ℚ)) (jobs : List JobEnv),
      ∃ rest, jobs.map JobEnv.sid = (worker_run m jobs).processed ++ rest) := by
  refine ⟨fun q => uqs_no_enqueues q, ?_⟩
  intro m jobs
  induction jobs generalizing m with
  | nil => exact ⟨[], rfl⟩
  | cons j rest ih =>
    cases ho : (process_job j m).outcome with
    | raisedCancelled => exact ⟨rest.map JobEnv.sid, by simp [worker_run, ho]⟩
    | hung => exact ⟨rest.map JobEnv.sid, by simp [worker_run, ho]⟩
    | raisedExn e =>
      obtain ⟨r, hr⟩ := ih ((process_job j m).thr)
      exact ⟨r, by simp [worker_run, ho, hr]⟩
    | completed fid =>
      obtain ⟨r, hr⟩ := ih ((process_job j m).thr)
      exact ⟨r, by simp [worker_run, ho, hr]⟩
    | failedAuth s =>
      obtain ⟨r, hr⟩ := ih ((process_job j m).thr)
      exact ⟨r, by simp [worker_run, ho, hr]⟩
    | failedOther s =>
      obtain ⟨r, hr⟩ := ih ((process_job j m).thr)
      exact ⟨r, by simp [worker_run, ho, hr]⟩

/-! ## C1 — the single-worker invariant -/

/-- C1 (counterexample): with two `add_job` calls both suspended at their
`reply_text` awaits, each resumes seeing `is_processing = False` (the first
created worker task has not yet run line 85), so each creates a worker
task: a state with two live activations is reachable.  The claimed global
invariant "at most one activation exists at any time" is therefore false. -/
theorem c1_refuted : ¬ (∀ s : WState, WReach s → activations s ≤ 1) := by
  intro h
  have t1 : WStep workerInit ⟨false, false, 0, 1, 0, 0⟩ :=
    WStep.beginAdd workerInit rfl
  have t2 : WStep ⟨false, false, 0, 1, 0, 0⟩ ⟨false, false, 0, 2, 0, 0⟩ :=
    WStep.beginAdd ⟨false, false, 0, 1, 0, 0⟩ rfl
  have t3 : WStep ⟨false, false, 0, 2, 0, 0⟩ ⟨false, false, 1, 1, 1, 0⟩ :=
    WStep.resumeAddIdle ⟨false, false, 0, 2, 0, 0⟩ (by decide) rfl
  have t4 : WStep ⟨false, false, 1, 1, 1, 0⟩ ⟨false, false, 2, 0, 2, 0⟩ :=
    WStep.resumeAddIdle ⟨false, false, 1, 1, 1, 0⟩ (by decide) rfl
  have hreach : WReach ⟨false, false, 2, 0, 2, 0⟩ :=
    Relation.ReflTransGen.head t1 (Relation.ReflTransGen.head t2
      (Relation.ReflTransGen.head t3 (Relation.ReflTransGen.head t4
        Relation.ReflTransGen.refl)))
  have := h _ hreach
  simp [activations] at this

theorem prompt_invariant (s : WState) (h : PromptReach s) :
    s.unstarted + s.running ≤ 1 ∧ s.running = (if s.processing then 1 else 0) := by
  unfold PromptReach at h
  induction h with
  | refl => simp [workerInit]
  | tail _ hstep ih =>
    obtain ⟨h1, h2⟩ := ih
    cases hstep with
    | beginAdd h' => exact ⟨h1, h2⟩
    | rejectAdd h' => exact ⟨h1, h2⟩
    | resumeAddBusy h' hp => exact ⟨h1, h2⟩
    | resumeAddIdle h' hp hz =>
      rw [hp] at h2
      simp only [Bool.false_eq_true, if_false] at h2
      simp [hp, hz, h2]
    | startWorker h' =>
      constructor
      · dsimp only
        omega
      · dsimp only
        simp
        omega
    | dequeueJob h' hq => exact ⟨h1, h2⟩
    | finishWorker h' =>
      constructor
      · dsimp only
        omega
      · dsimp only
        simp only [Bool.false_eq_true, if_false]
        omega

/-- C1 (amended theorem): an `add_job` that observes an *active* activation
(`is_processing = True`) never starts a second worker task — no step taken
from a state with `processing = true` increases the number of live
activations — and under the prompt-activation scheduling assumption (no
suspended `add_job` resumes while a created worker task has not yet begun
running) every reachable state has at most one activation.  Without that
assumption the bound is violated (see the counterexample). -/
theorem c1_single_worker_amended :
    (∀ s t : WState, WStep s t → s.processing = true → activations t ≤ activations s) ∧
    (∀ s : WState, PromptReach s → activations s ≤ 1) := by
  constructor
  · intro s t hst hp
    cases hst with
    | beginAdd h' => exact le_refl _
    | rejectAdd h' => exact le_refl _
    | resumeAddBusy h' hp' => exact le_refl _
    | resumeAddIdle h' hp' => rw [hp] at hp'; cases hp'
    | startWorker h' =>
      unfold activations
      dsimp only
      omega
    | dequeueJob h' hq => exact le_refl _
    | finishWorker h' =>
      unfold activations
      dsimp only
      omega
  · intro s h
    exact (prompt_invariant s h).1

/-- C1 (witness): the no-second-task part at a concrete busy-resume step,
and the prompt-scheduling bound at the initial state. -/
theorem c1_witness :
    activations ⟨false, true, 1, 0, 0, 1⟩ ≤ activations ⟨false, true, 0, 1, 0, 1⟩ ∧
    activations workerInit ≤ 1 :=
  ⟨c1_single_worker_amended.1 ⟨false, true, 0, 1, 0, 1⟩ ⟨false, true, 1, 0, 0, 1⟩
      (WStep.resumeAddBusy ⟨false, true, 0, 1, 0, 1⟩ (by decide) rfl) rfl,
    c1_single_worker_amended.2 workerInit Relation.ReflTransGen.refl⟩

/-! ## C7 — progress throttling -/

theorem lookupT_insertT_self (m : List (ℕ × ℚ)) (i : ℕ) (v : ℚ) :
    lookupT (insertT m i v) i = some v := by
  simp [insertT, lookupT]

theorem runProgress_emits_spec (sid : ℕ) (f : String) (times : ℕ → ℚ) (ok : ℕ → Bool) :
    ∀ (ps : List ℚ) (k : ℕ) (m : List (ℕ × ℚ)),
      List.Chain' (fun a b : ℚ => a + 2 < b) ((runProgress sid f times ok k m ps).emits) ∧
      (∀ e ∈ ((runProgress sid f times ok k m ps).emits).head?,
        ∀ l : ℚ, lookupT m sid = some l → l + 2 < e) := by
  intro ps
  induction ps with
  | nil =>
    intro k m
    simp [runProgress]
  | cons p ps ih =>
    intro k m
    rcases hl : lookupT m sid with _ | l
    · have hrec := ih (k + 1) (insertT m sid (times k))
      refine ⟨?_, ?_⟩
      · simp only [runProgress, hl, if_true]
        rw [List.chain'_cons']
        exact ⟨fun b hb => hrec.2 b hb (times k) (lookupT_insertT_self m sid (times k)),
          hrec.1⟩
      · intro e he l' hl'
        simp at hl'
    · by_cases hlt : 2 < times k - l
      · have hrec := ih (k + 1) (insertT m sid (times k))
        refine ⟨?_, ?_⟩
        · simp only [runProgress, hl, decide_eq_true_eq, if_pos hlt]
          rw [List.chain'_cons']
          exact ⟨fun b hb => hrec.2 b hb (times k) (lookupT_insertT_self m sid (times k)),
            hrec.1⟩
        · intro e he l' hl'
          obtain rfl := Option.some.inj hl'
          simp only [runProgress, hl, decide_eq_true_eq, if_pos hlt] at he
          simp only [List.head?_cons, Option.mem_def, Option.some.injEq] at he
          subst he
          linarith
      · have hrec := ih (k + 1) m
        refine ⟨?_, ?_⟩
        · simp only [runProgress, hl, decide_eq_true_eq, if_neg hlt]
          exact hrec.1
        · intro e he l' hl'
          simp only [runProgress, hl, decide_eq_true_eq, if_neg hlt] at he
          exact hrec.2 e he l' (hl.trans hl')

theorem runProgress_edits_sublist (sid : ℕ) (f : String) (times : ℕ → ℚ) (ok : ℕ → Bool) :
    ∀ (ps : List ℚ) (k : ℕ) (m : List (ℕ × ℚ)),
      List.Sublist (((runProgress sid f times ok k m ps).edits).map (fun e => e.2.1))
        (ps.map (progressText f)) := by
  intro ps
  induction ps with
  | nil =>
    intro k m
    simp [runProgress]
  | cons p ps ih =>
    intro k m
    rcases hl : lookupT m sid with _ | l
    · simp only [runProgress, hl, if_true, List.map]
      exact List.Sublist.cons₂ _ (ih (k + 1) (insertT m sid (times k)))
    · by_cases hlt : 2 < times k - l
      · simp only [runProgress, hl, decide_eq_true_eq, if_pos hlt, List.map]
        exact List.Sublist.cons₂ _ (ih (k + 1) (insertT m sid (times k)))
      · simp only [runProgress, hl, decide_eq_true_eq, if_neg hlt, List.map]
        exact List.Sublist.cons _ (ih (k + 1) m)

theorem upload_file_done (cancelled : ℕ → Bool) (hnc : ∀ i, cancelled i = false)
    (fid : String) :
    ∀ (pre : List Chunk) (k : ℕ), (∀ c ∈ pre, ∃ p, c = Chunk.progress p) →
      (upload_file cancelled k (pre ++ [Chunk.done fid])).1 = some (.ok fid) := by
  intro pre
  induction pre with
  | nil =>
    intro k hp
    simp [upload_file, hnc k]
  | cons c rest ih =>
    intro k hp
    obtain ⟨p, rfl⟩ := hp c (List.mem_cons_self c rest)
    simp only [List.cons_append, upload_file, hnc k, Bool.false_eq_true, if_false]
    exact ih (k + 1) (fun c hc => hp c (List.mem_cons_of_mem _ hc))

/-- C7 (theorem): (1) for every job, any two progress notifications are
more than 2 seconds apart — the per-message-id timestamp guard admits at
most one outbound update per 2 elapsed seconds; (2) the emitted updates are
a subsequence of the arriving raw events, each carrying its own event's
value — dropped events are never replayed; (3) a job whose upload completes
gets the terminal success notification as its last status write, for
*every* state of the throttle map. -/
theorem c7_progress_throttle :
    (∀ (sid : ℕ) (f : String) (times : ℕ → ℚ) (ok : ℕ → Bool) (ps : List ℚ) (k : ℕ)
        (m : List (ℕ × ℚ)),
      List.Chain' (fun a b : ℚ => a + 2 < b) ((runProgress sid f times ok k m ps).emits)) ∧
    (∀ (sid : ℕ) (f : String) (times : ℕ → ℚ) (ok : ℕ → Bool) (ps : List ℚ) (k : ℕ)
        (m : List (ℕ × ℚ)),
      List.Sublist (((runProgress sid f times ok k m ps).edits).map (fun e => e.2.1))
        (ps.map (progressText f))) ∧
    (∀ (env : JobEnv) (m : List (ℕ × ℚ)) (fid : String) (pre : List Chunk),
      env.notify.downloadingOk = true → env.notify.uploadingOk = true →
      env.notify.successOk = true → env.downloadErr = none → env.serviceErr = none →
      env.chunks = pre ++ [Chunk.done fid] → (∀ c ∈ pre, ∃ p, c = Chunk.progress p) →
      (∀ i, env.cancelled i = false) →
      (process_job env m).outcome = Outcome.completed fid ∧
      (process_job env m).edits.getLast? =
        some (env.sid, msgSuccess env.fileName fid, true)) := by
  refine ⟨fun sid f times ok ps k m => (runProgress_emits_spec sid f times ok ps k m).1,
    runProgress_edits_sublist, ?_⟩
  intro env m fid pre h1 h2 h3 h4 h5 h6 h7 h8
  have hu : (upload_file env.cancelled 0 env.chunks).1 = some (.ok fid) := by
    rw [h6]; exact upload_file_done env.cancelled h8 fid pre 0 h7
  constructor
  · simp only [process_job, h1, h2, h3, h4, h5]
    simp only [Bool.true_eq_false, if_false, hu, if_true]
  · simp only [process_job, h1, h2, h3, h4, h5]
    simp only [Bool.true_eq_false, if_false, hu, if_true]
    rw [List.getLast?_concat]

/-- C7 (witness): a concrete completing upload with two raw progress events
and a non-trivial prior throttle map. -/
theorem c7_witness :
    (process_job
        ⟨"clip.mp4", 5, none, none,
          [Chunk.progress (1 / 4), Chunk.progress (1 / 2), Chunk.done "FID9"],
          fun _ => false, fun k => k, allNotifyOk⟩ [(5, 0)]).outcome =
      Outcome.completed "FID9" ∧
    (process_job
        ⟨"clip.mp4", 5, none, none,
          [Chunk.progress (1 / 4), Chunk.progress (1 / 2), Chunk.done "FID9"],
          fun _ => false, fun k => k, allNotifyOk⟩ [(5, 0)]).edits.getLast? =
      some (5, msgSuccess "clip.mp4" "FID9", true) :=
  c7_progress_throttle.2.2
    ⟨"clip.mp4", 5, none, none,
      [Chunk.progress (1 / 4), Chunk.progress (1 / 2), Chunk.done "FID9"],
      fun _ => false, fun k => k, allNotifyOk⟩ [(5, 0)] "FID9"
    [Chunk.progress (1 / 4), Chunk.progress (1 / 2)] rfl rfl rfl rfl rfl rfl
    (by
      intro c hc
      simp only [List.mem_cons, List.not_mem_nil, or_false] at hc
      rcases hc with rfl | rfl
      · exact ⟨1 / 4, rfl⟩
      · exact ⟨1 / 2, rfl⟩)
    (fun i => rfl)

/-! ## C6 — operator cancellation vs. transfer failure -/

theorem upload_file_cancelled_during (cancelled : ℕ → Bool) :
    ∀ (chunks : List Chunk) (j k : ℕ), (∀ c ∈ chunks, ∃ p, c = Chunk.progress p) →
      j ≤ k → k ≤ j + chunks.length → (∀ i, k ≤ i → cancelled i = true) →
      (upload_file cancelled j chunks).1 = some (.error cancelExn) := by
  intro chunks
  induction chunks with
  | nil =>
    intro j k hp hjk hkj hc
    have hj : j = k := le_antisymm hjk (by simpa using hkj)
    simp [upload_file, hc j (hj ▸ le_refl j)]
  | cons c rest ih =>
    intro j k hp hjk hkj hc
    by_cases hcj : cancelled j = true
    · simp [upload_file, hcj]
    · have hjk' : j + 1 ≤ k := by
        rcases Nat.lt_or_ge j k with h | h
        · exact h
        · exact absurd (hc j (le_trans h (le_refl j))) hcj
      obtain ⟨p, rfl⟩ := hp c (List.mem_cons_self c rest)
      simp only [upload_file, hcj, Bool.false_eq_true, if_false]
      exact ih (j + 1) k (fun c hc' => hp c (List.mem_cons_of_mem _ hc')) hjk'
        (by simpa [Nat.add_comm, Nat.add_assoc, Nat.add_left_comm] using hkj) hc

theorem upload_file_err (cancelled : ℕ → Bool) (hnc : ∀ i, cancelled i = false)
    (ex : Exn) :
    ∀ (pre : List Chunk) (k : ℕ), (∀ c ∈ pre, ∃ p, c = Chunk.progress p) →
      (upload_file cancelled k (pre ++ [Chunk.err ex])).1 = some (.error ex) := by
  intro pre
  induction pre with
  | nil =>
    intro k hp
    simp [upload_file, hnc k]
  | cons c rest ih =>
    intro k hp
    obtain ⟨p, rfl⟩ := hp c (List.mem_cons_self c rest)
    simp only [List.cons_append, upload_file, hnc k, Bool.false_eq_true, if_false]
    exact ih (k + 1) (fun c hc => hp c (List.mem_cons_of_mem _ hc))

/-- C6 (counterexample): a backend error that is *not* an operator
cancellation — the pause flag is never set, `check_cancelled` always
returns `False` — but whose text happens to contain the phrase
`"cancelled by admin"` is classified by the substring test on line 176 as a
cancellation: the job ends in `Cancelled` (the `asyncio.CancelledError`
path) instead of `Failed`, refuting "every backend error other than
operator cancellation terminates the Job in Failed". -/
theorem c6_refuted :
    (process_job
        ⟨"movie.mkv", 21, none, none,
          [Chunk.err ⟨false, "Connection CANCELLED BY ADMIN gateway"⟩],
          fun _ => false, fun _ => 0, allNotifyOk⟩ []).outcome =
      Outcome.raisedCancelled ∧
    (process_job
        ⟨"movie.mkv", 21, none, none,
          [Chunk.err ⟨false, "Connection CANCELLED BY ADMIN gateway"⟩],
          fun _ => false, fun _ => 0, allNotifyOk⟩ []).outcome ≠
      Outcome.failedOther "Connection CANCELLED BY ADMIN gateway" := by
  constructor
  · rfl
  · decide

theorem containsText_of_eq (hay x sub z : String) (h : hay = x ++ sub ++ z) :
    containsText hay sub := by
  rw [h]; exact containsText_of_parts x sub z

/-- C6 (amended theorem): (A) if the Pause State becomes `true` while a
job's transfer is in flight (the cancellation poll returns `true` from some
iteration within the chunk script on), the backend call aborts with the
distinguished `"Upload cancelled by admin"` outcome, `process_job` applies
cancellation semantics (re-raises `CancelledError` rather than entering
either failure path) and the worker's final notice for the job explicitly
names the admin as the cause; (B) every backend error whose text does
*not* contain the phrase `"cancelled by admin"` terminates the job in
`Failed` (the auth or the generic failure edit).  The amendment restricts
the converse of the claim to marker-free error texts: the code
distinguishes cancellation only by that substring (see the
counterexample). -/
theorem c6_cancellation_amended :
    (∀ (env : JobEnv) (m : List (ℕ × ℚ)) (rest : List JobEnv) (k : ℕ),
      env.notify.downloadingOk = true → env.notify.uploadingOk = true →
      env.downloadErr = none → env.serviceErr = none →
      (∀ c ∈ env.chunks, ∃ p, c = Chunk.progress p) →
      k ≤ env.chunks.length → (∀ i, k ≤ i → env.cancelled i = true) →
      (process_job env m).outcome = Outcome.raisedCancelled ∧
      (env.sid, msgForceStopped, true) ∈ (worker_run m (env :: rest)).edits ∧
      containsText msgForceStopped "admin") ∧
    (∀ (env : JobEnv) (m : List (ℕ × ℚ)) (pre : List Chunk) (ex : Exn),
      env.notify.downloadingOk = true → env.notify.uploadingOk = true →
      env.notify.authOk = true → env.notify.failOk = true →
      env.downloadErr = none → env.serviceErr = none →
      env.chunks = pre ++ [Chunk.err ex] → (∀ c ∈ pre, ∃ p, c = Chunk.progress p) →
      (∀ i, env.cancelled i = false) →
      strContainsSub (lowerStr ex.msg) adminMarker = false →
      (process_job env m).outcome =
        (if ex.isAuth then Outcome.failedAuth ex.msg else Outcome.failedOther ex.msg)) := by
  constructor
  · intro env m rest k h1 h2 h4 h5 hp hk hc
    have hu : (upload_file env.cancelled 0 env.chunks).1 = some (.error cancelExn) :=
      upload_file_cancelled_during env.cancelled env.chunks 0 k hp (Nat.zero_le k)
        (by simpa using hk) hc
    have ho : (process_job env m).outcome = Outcome.raisedCancelled := by
      simp only [process_job, h1, h2, h4, h5]
      simp only [Bool.true_eq_false, if_false, hu]
      simp only [handleUploadExn,
        (by decide : strContainsSub (lowerStr cancelExn.msg) adminMarker = true), if_true]
    refine ⟨ho, ?_, ?_⟩
    · simp only [worker_run, ho]
      exact List.mem_append_left _ (List.mem_append_right _ (List.mem_singleton.mpr rfl))
    · exact containsText_of_eq _ "🛑 This task was force-stopped by an " "admin" "."
        (by decide)
  · intro env m pre ex h1 h2 h3 h3' h4 h5 h6 hp hnc h9
    have hu : (upload_file env.cancelled 0 env.chunks).1 = some (.error ex) := by
      rw [h6]; exact upload_file_err env.cancelled hnc ex pre 0 hp
    simp only [process_job, h1, h2, h4, h5]
    simp only [Bool.true_eq_false, if_false, hu]
    by_cases hA : ex.isAuth = true
    · simp [handleUploadExn, h9, hA, h3]
    · simp only [Bool.not_eq_true] at hA
      simp [handleUploadExn, h9, hA, h3']

/-- C6 (witness): part (A) at a job whose pause poll turns true from
iteration 1 on during an all-progress transfer; part (B) at a marker-free
generic backend error. -/
theorem c6_witness :
    (process_job
        ⟨"iso.img", 51, none, none, [Chunk.progress (1 / 10)],
          fun i => decide (1 ≤ i), fun _ => 0, allNotifyOk⟩ []).outcome =
      Outcome.raisedCancelled ∧
    (51, msgForceStopped, true) ∈
      (worker_run []
        [⟨"iso.img", 51, none, none, [Chunk.progress (1 / 10)],
          fun i => decide (1 ≤ i), fun _ => 0, allNotifyOk⟩]).edits ∧
    (process_job
        ⟨"doc.txt", 52, none, none, [Chunk.err ⟨false, "Quota exceeded"⟩],
          fun _ => false, fun _ => 0, allNotifyOk⟩ []).outcome =
      Outcome.failedOther "Quota exceeded" := by
  have hA := c6_cancellation_amended.1
    ⟨"iso.img", 51, none, none, [Chunk.progress (1 / 10)],
      fun i => decide (1 ≤ i), fun _ => 0, allNotifyOk⟩ [] [] 1 rfl rfl rfl rfl
    (by
      intro c hc
      simp only [List.mem_singleton] at hc
      exact ⟨1 / 10, hc⟩)
    (by decide)
    (fun i hi => decide_eq_true hi)
  have hB := c6_cancellation_amended.2
    ⟨"doc.txt", 52, none, none, [Chunk.err ⟨false, "Quota exceeded"⟩],
      fun _ => false, fun _ => 0, allNotifyOk⟩ [] [] ⟨false, "Quota exceeded"⟩
    rfl rfl rfl rfl rfl rfl rfl (by intro c hc; cases hc) (fun i => rfl) (by decide)
  exact ⟨hA.1, hA.2.1, by simpa using hB⟩

/-! ## C8 — transfer-authentication errors -/

/-- C8 (counterexample): a `GoogleAuthError` whose text contains the phrase
`"cancelled by admin"` (`get_drive_service` embeds arbitrary underlying
error text into "Failed to refresh token: ...") hits the substring test on
line 176 *before* the `isinstance(e, GoogleAuthError)` test on line 181:
the job is re-raised as cancelled — not marked `Failed`, no auth edit — and
the worker activation exits instead of continuing with the next job. -/
theorem c8_refuted :
    (process_job
        ⟨"notes.pdf", 31, none, some "Failed to refresh token: request cancelled by admin proxy",
          [], fun _ => false, fun _ => 0, allNotifyOk⟩ []).outcome =
      Outcome.raisedCancelled ∧
    (process_job
        ⟨"notes.pdf", 31, none, some "Failed to refresh token: request cancelled by admin proxy",
          [], fun _ => false, fun _ => 0, allNotifyOk⟩ []).outcome ≠
      Outcome.failedAuth "Failed to refresh token: request cancelled by admin proxy" ∧
    (worker_run []
        [⟨"notes.pdf", 31, none, some "Failed to refresh token: request cancelled by admin proxy",
          [], fun _ => false, fun _ => 0, allNotifyOk⟩]).halted = true := by
  refine ⟨rfl, by decide, rfl⟩

/-- C8 (amended theorem): for every job whose backend call raises a
transfer-authentication error whose text does not contain the phrase
`"cancelled by admin"`, the job ends in `Failed` (`failedAuth`) after the
single upload attempt, the last write to its status handle is the auth
edit, that edit contains the verbatim error text and the `/reauth`
remediation hint, and the worker loop goes on to process the remaining
queued jobs exactly as it would have (same processed list, same halt
status).  The amendment excludes marker-carrying auth texts, which the
substring test diverts to the cancellation path (see the
counterexample). -/
theorem c8_auth_failure_amended (env : JobEnv) (m : List (ℕ × ℚ)) (rest : List JobEnv)
    (pre : List Chunk) (am : String)
    (h1 : env.notify.downloadingOk = true) (h2 : env.notify.uploadingOk = true)
    (h3 : env.notify.authOk = true)
    (h4 : env.downloadErr = none) (h5 : env.serviceErr = none)
    (h6 : env.chunks = pre ++ [Chunk.err ⟨true, am⟩])
    (h7 : ∀ c ∈ pre, ∃ p, c = Chunk.progress p)
    (h8 : ∀ i, env.cancelled i = false)
    (h9 : strContainsSub (lowerStr am) adminMarker = false) :
    (process_job env m).outcome = Outcome.failedAuth am ∧
    (process_job env m).edits.getLast? = some (env.sid, msgAuthErr am, true) ∧
    containsText (msgAuthErr am) am ∧
    containsText (msgAuthErr am) "/reauth" ∧
    (worker_run m (env :: rest)).processed =
      env.sid :: (worker_run (process_job env m).thr rest).processed ∧
    (worker_run m (env :: rest)).halted = (worker_run (process_job env m).thr rest).halted := by
  have hu : (upload_file env.cancelled 0 env.chunks).1 = some (.error ⟨true, am⟩) := by
    rw [h6]; exact upload_file_err env.cancelled h8 ⟨true, am⟩ pre 0 h7
  have ho : (process_job env m).outcome = Outcome.failedAuth am := by
    simp only [process_job, h1, h2, h4, h5]
    simp only [Bool.true_eq_false, if_false, hu]
    simp [handleUploadExn, h9, h3]
  refine ⟨ho, ?_, ?_, ?_, ?_, ?_⟩
  · simp only [process_job, h1, h2, h4, h5]
    simp only [Bool.true_eq_false, if_false, hu]
    simp only [handleUploadExn, h9, Bool.false_eq_true, if_false, if_true, h3]
    rw [List.getLast?_concat]
  · exact containsText_of_eq _ "❌ **Drive Auth Error:**\n`" am
      "`\n\nUse /reauth to fix this." rfl
  · refine ⟨("❌ **Drive Auth Error:**\n`" ++ am ++ "`\n\nUse ").data, " to fix this.".data, ?_⟩
    have hsplit : ("`\n\nUse /reauth to fix this." : String).data =
        "`\n\nUse ".data ++ "/reauth".data ++ " to fix this.".data := by decide
    simp [msgAuthErr, data_append_eq, hsplit]
  · simp only [worker_run, ho]
  · simp only [worker_run, ho]

/-- C8 (witness): a concrete marker-free auth failure followed by a second
queued job, showing the worker moves on. -/
theorem c8_witness :
    (process_job
        ⟨"a.zip", 61, none, none, [Chunk.err ⟨true, "invalid_grant"⟩],
          fun _ => false, fun _ => 0, allNotifyOk⟩ []).outcome =
      Outcome.failedAuth "invalid_grant" ∧
    containsText (msgAuthErr "invalid_grant") "/reauth" ∧
    (worker_run []
        [⟨"a.zip", 61, none, none, [Chunk.err ⟨true, "invalid_grant"⟩],
            fun _ => false, fun _ => 0, allNotifyOk⟩,
          ⟨"b.zip", 62, none, none, [Chunk.done "ID2"],
            fun _ => false, fun _ => 0, allNotifyOk⟩]).processed =
      61 ::
        (worker_run
          (process_job
            ⟨"a.zip", 61, none, none, [Chunk.err ⟨true, "invalid_grant"⟩],
              fun _ => false, fun _ => 0, allNotifyOk⟩ []).thr
          [⟨"b.zip", 62, none, none, [Chunk.done "ID2"],
            fun _ => false, fun _ => 0, allNotifyOk⟩]).processed := by
  have h := c8_auth_failure_amended
    ⟨"a.zip", 61, none, none, [Chunk.err ⟨true, "invalid_grant"⟩],
      fun _ => false, fun _ => 0, allNotifyOk⟩ []
    [⟨"b.zip", 62, none, none, [Chunk.done "ID2"], fun _ => false, fun _ => 0, allNotifyOk⟩]
    [] "invalid_grant" rfl rfl rfl rfl rfl rfl (by intro c hc; cases hc) (fun i => rfl)
    (by decide)
  exact ⟨h.1, h.2.2.2.1, h.2.2.2.2.1⟩

/-! ## C5 — notification failures -/

/-- C5 (counterexample): the final success edit sits *inside* the
`try:` of `process_job` (line 173).  When the transfer succeeds but that
status write fails, the notification failure falls into the same
`except Exception` as an upload error: the requester is told
"❌ Upload failed: Message edit failed" — the notification failure changed
the job's terminal report, so "a Job whose transfer succeeded still
terminates as Completed even if a status-handle write failed" is false.
(The `Downloading`/`Uploading` edits on lines 125 and 132 are likewise
unprotected: their failure propagates out of `process_job` into the
worker's generic error handler.) -/
theorem c5_refuted :
    (process_job
        ⟨"report.docx", 41, none, none, [Chunk.done "NEWID"],
          fun _ => false, fun _ => 0,
          ⟨true, true, fun _ => true, false, true, true, true⟩⟩ []).outcome =
      Outcome.failedOther "Message edit failed" ∧
    (process_job
        ⟨"report.docx", 41, none, none, [Chunk.done "NEWID"],
          fun _ => false, fun _ => 0,
          ⟨true, true, fun _ => true, false, true, true, true⟩⟩ []).outcome ≠
      Outcome.completed "NEWID" ∧
    (process_job
        ⟨"report.docx", 41, none, none, [Chunk.done "NEWID"],
          fun _ => false, fun _ => 0,
          ⟨true, true, fun _ => true, false, true, true, true⟩⟩ []).edits.getLast? =
      some (41, msgUploadFailed "Message edit failed", true) := by
  refine ⟨rfl, by decide, rfl⟩

theorem runProgress_ok_indep (sid : ℕ) (f : String) (times : ℕ → ℚ) (ok g : ℕ → Bool) :
    ∀ (ps : List ℚ) (k : ℕ) (m : List (ℕ × ℚ)),
      (runProgress sid f times g k m ps).thr = (runProgress sid f times ok k m ps).thr ∧
      (runProgress sid f times g k m ps).emits = (runProgress sid f times ok k m ps).emits := by
  intro ps
  induction ps with
  | nil => intro k m; exact ⟨rfl, rfl⟩
  | cons p ps ih =>
    intro k m
    rcases hl : lookupT m sid with _ | l
    · have h := ih (k + 1) (insertT m sid (times k))
      simp only [runProgress, hl, if_true]
      exact ⟨h.1, by rw [h.2]⟩
    · by_cases hlt : 2 < times k - l
      · have h := ih (k + 1) (insertT m sid (times k))
        simp only [runProgress, hl, decide_eq_true_eq, if_pos hlt]
        exact ⟨h.1, by rw [h.2]⟩
      · have h := ih (k + 1) m
        simp only [runProgress, hl, decide_eq_true_eq, if_neg hlt]
        exact h

theorem process_job_progressOk_indep (env : JobEnv) (m : List (ℕ × ℚ)) (g : ℕ → Bool) :
    (process_job { env with notify := { env.notify with progressOk := g } } m).outcome =
      (process_job env m).outcome ∧
    (process_job { env with notify := { env.notify with progressOk := g } } m).thr =
      (process_job env m).thr := by
  cases hdd : env.notify.downloadingOk with
  | false => simp [process_job, hdd]
  | true =>
    cases hde : env.downloadErr with
    | some ex => simp [process_job, hdd, hde]
    | none =>
      cases hup : env.notify.uploadingOk with
      | false => simp [process_job, hdd, hde, hup]
      | true =>
        cases hse : env.serviceErr with
        | some am => simp [process_job, hdd, hde, hup, hse, handleUploadExn]
        | none =>
          have hind := runProgress_ok_indep env.sid env.fileName env.times
            env.notify.progressOk g ((upload_file env.cancelled 0 env.chunks).2) 0 m
          cases hur : (upload_file env.cancelled 0 env.chunks).1 with
          | none => simp [process_job, hdd, hde, hup, hse, hur, hind.1]
          | some r =>
            cases r with
            | ok fid =>
              cases hsk : env.notify.successOk with
              | true => simp [process_job, hdd, hde, hup, hse, hur, hsk, hind.1]
              | false =>
                simp [process_job, hdd, hde, hup, hse, hur, hsk, handleUploadExn, hind.1,
                  notifyExn,
                  (by decide :
                    strContainsSub (lowerStr "Message edit failed") adminMarker = false)]
            | error ex =>
              by_cases hmk : strContainsSub (lowerStr ex.msg) adminMarker = true
              · simp [process_job, hdd, hde, hup, hse, hur, handleUploadExn, hmk, hind.1]
              · by_cases hA : ex.isAuth = true
                · simp [process_job, hdd, hde, hup, hse, hur, handleUploadExn, hmk, hA,
                    hind.1]
                · simp [process_job, hdd, hde, hup, hse, hur, handleUploadExn, hmk, hA,
                    hind.1]

/-- C5 (amended theorem): the notification failures the code wraps in
`try/except: pass` are indeed swallowed and inert: (1) the state transition
and the drained count of `pause_bot` are identical whatever happens to the
per-job cancellation notices; (2) a job's outcome and the throttle map are
unchanged under any pattern of progress-edit failures; (3) when an
exception (e.g. a failed unprotected status write) escapes `process_job`,
the worker swallows it behind its own error notice and continues with the
remaining jobs unchanged.  The amendment drops the claim's universality:
the `Downloading`/`Uploading` transition edits and the terminal edits are
*not* protected, and a failing success edit reroutes a successful transfer
to the failure report (see the counterexample). -/
theorem c5_notification_swallowed_amended :
    (∀ (s : BotState) (ok ok2 : ℕ → Bool),
      (pause_bot s ok).1 = (pause_bot s ok2).1 ∧
      (pause_bot s ok).2.1 = (pause_bot s ok2).2.1) ∧
    (∀ (env : JobEnv) (m : List (ℕ × ℚ)) (g : ℕ → Bool),
      (process_job { env with notify := { env.notify with progressOk := g } } m).outcome =
        (process_job env m).outcome ∧
      (process_job { env with notify := { env.notify with progressOk := g } } m).thr =
        (process_job env m).thr) ∧
    (∀ (m : List (ℕ × ℚ)) (j : JobEnv) (rest : List JobEnv) (e : Exn),
      (process_job j m).outcome = Outcome.raisedExn e →
      (worker_run m (j :: rest)).processed =
        j.sid :: (worker_run (process_job j m).thr rest).processed ∧
      (worker_run m (j :: rest)).halted = (worker_run (process_job j m).thr rest).halted) := by
  refine ⟨fun s ok ok2 => ⟨rfl, rfl⟩, process_job_progressOk_indep, ?_⟩
  intro m j rest e h
  constructor <;> simp only [worker_run, h]

/-- C5 (witness): a failing `Downloading` transition edit escapes
`process_job` as an exception and the worker continues to the next job. -/
theorem c5_witness :
    (worker_run []
        [⟨"x.bin", 71, none, none, [Chunk.done "IDX"], fun _ => false, fun _ => 0,
            ⟨false, true, fun _ => true, true, true, true, true⟩⟩,
          ⟨"y.bin", 72, none, none, [Chunk.done "IDY"], fun _ => false, fun _ => 0,
            allNotifyOk⟩]).processed =
      71 ::
        (worker_run
          (process_job
            ⟨"x.bin", 71, none, none, [Chunk.done "IDX"], fun _ => false, fun _ => 0,
              ⟨false, true, fun _ => true, true, true, true, true⟩⟩ []).thr
          [⟨"y.bin", 72, none, none, [Chunk.done "IDY"], fun _ => false, fun _ => 0,
            allNotifyOk⟩]).processed := by
  have h := c5_notification_swallowed_amended.2.2 []
    ⟨"x.bin", 71, none, none, [Chunk.done "IDX"], fun _ => false, fun _ => 0,
      ⟨false, true, fun _ => true, true, true, true, true⟩⟩
    [⟨"y.bin", 72, none, none, [Chunk.done "IDY"], fun _ => false, fun _ => 0, allNotifyOk⟩]
    notifyExn rfl
  exact h.1
